import Mathlib

/-!
Shallow embedding of the transcription-normalization passes of the
usalingo IPA maker: the Arpabet tokenizers, the Arpabet-to-IPA symbol
mapper, the stress-mark repair passes, the regex rule pipeline of the
standardizer, and the output validator.  Strings are modelled as
`List Char`; each Python `re.sub` is rendered as a recursive scan with
the same non-overlapping left-to-right match semantics.
-/

/-- Primary stress glyph (U+02C8), written `'ˈ'` in the source. -/
def primaryStress : Char := 'ˈ'

/-- Secondary stress glyph (U+02CC), written `'ˌ'` in the source. -/
def secondaryStress : Char := 'ˌ'

/-- Membership in the regex class `[ˈˌ]` used throughout the correctors. -/
def isStressChar (c : Char) : Bool := c = primaryStress || c = secondaryStress

/-- Membership in the vowel-search class `[aeiouæɑɔʊʌɪɛəɜ]`
(`re.search` target of the stress-insertion step). -/
def isVowelChar (c : Char) : Bool :=
  c = 'a' || c = 'e' || c = 'i' || c = 'o' || c = 'u' || c = 'æ' || c = 'ɑ' ||
  c = 'ɔ' || c = 'ʊ' || c = 'ʌ' || c = 'ɪ' || c = 'ɛ' || c = 'ə' || c = 'ɜ'

/-- Membership in the consonant class `[pbtdkgfvθðszʃʒmnlrwj]` of
`final_ipa_corrector.clean_stress_marks` (note: plain ASCII `g`). -/
def isConsClassChar (c : Char) : Bool :=
  c = 'p' || c = 'b' || c = 't' || c = 'd' || c = 'k' || c = 'g' || c = 'f' ||
  c = 'v' || c = 'θ' || c = 'ð' || c = 's' || c = 'z' || c = 'ʃ' || c = 'ʒ' ||
  c = 'm' || c = 'n' || c = 'l' || c = 'r' || c = 'w' || c = 'j'

/-- Python whitespace characters relevant to `str.strip`/`str.split`/`\s`. -/
def isWsChar (c : Char) : Bool :=
  c = ' ' || c = '\t' || c = '\n' || c = '\r' || c = Char.ofNat 11 || c = Char.ofNat 12

/-- `re.sub(r'[ˈˌ]+', lambda m: m.group(0)[0], s)`: each maximal run of
stress glyphs is replaced by its first glyph.  The flag records whether
the previous character was a stress glyph. -/
def collapseStressAux : Bool → List Char → List Char
  | _, [] => []
  | prev, c :: rest =>
    if isStressChar c then
      if prev then collapseStressAux true rest
      else c :: collapseStressAux true rest
    else c :: collapseStressAux false rest

/-- Duplicate-stress collapse step shared by the corrector variants. -/
def collapseStress (s : List Char) : List Char := collapseStressAux false s

/-- `s.startswith(('ˈ', 'ˌ'))`. -/
def startsWithStress : List Char → Bool
  | [] => false
  | c :: _ => isStressChar c

/-- `re.search(r'[aeiouæɑɔʊʌɪɛəɜ]', s)` followed by
`s[:pos] + 'ˈ' + s[pos:]`: insert a primary stress glyph immediately
before the first vowel character; unchanged when no vowel occurs. -/
def insertBeforeFirstVowel : List Char → List Char
  | [] => []
  | c :: rest =>
    if isVowelChar c then primaryStress :: c :: rest
    else c :: insertBeforeFirstVowel rest

/-- The guarded insertion block
`if cleaned and not cleaned.startswith(('ˈ', 'ˌ')): ...insert...`. -/
def insertStressIfMissing (s : List Char) : List Char :=
  if !s.isEmpty && !startsWithStress s then insertBeforeFirstVowel s else s

/-- Fuelled scan for `re.sub(r'(C)[ˈˌ](C)', r'\1\2', s)` with `C` the
consonant class: on a three-character match the glyph is deleted and the
matched consonants are consumed (scanning resumes after the match,
exactly as `re.sub` does); otherwise the scan advances one character.
Every step consumes at least one input character, so fuel equal to the
input length suffices. -/
def removeConsStressConsFuel : Nat → List Char → List Char
  | 0, l => l
  | _ + 1, [] => []
  | fuel + 1, a :: rest =>
    match rest with
    | g :: c2 :: rest2 =>
      if isConsClassChar a && isStressChar g && isConsClassChar c2 then
        a :: c2 :: removeConsStressConsFuel fuel rest2
      else a :: removeConsStressConsFuel fuel rest
    | _ => a :: removeConsStressConsFuel fuel rest

/-- `re.sub(r'([pbtdkgfvθðszʃʒmnlrwj])[ˈˌ]([pbtdkgfvθðszʃʒmnlrwj])',
r'\1\2', s)`: delete a stress glyph wedged between two consonants. -/
def removeConsStressCons (s : List Char) : List Char :=
  removeConsStressConsFuel s.length s

/-- `FinalIPACorrector.clean_stress_marks`: collapse duplicate stress
glyphs, insert a primary glyph before the first vowel when the text does
not start with a stress glyph, then delete glyphs between consonants. -/
def clean_stress_marks (s : List Char) : List Char :=
  if s.isEmpty then []
  else removeConsStressCons (insertStressIfMissing (collapseStress s))

/-- `re.sub(r'ɝ', 'ɜːr', s)`. -/
def substErr : List Char → List Char
  | [] => []
  | c :: rest => if c = 'ɝ' then 'ɜ' :: 'ː' :: 'r' :: substErr rest else c :: substErr rest

/-- `re.sub(r'ɹ', 'r', s)`. -/
def substRhotic : List Char → List Char
  | [] => []
  | c :: rest => if c = 'ɹ' then 'r' :: substRhotic rest else c :: substRhotic rest

/-- `CorrectIPAConverter.correct_ipa_pronunciation`: rhotic-vowel merge,
rhotic-consonant unification, duplicate-stress collapse, then insertion
of a leading primary stress glyph before the first vowel when the text
does not already start with a stress glyph. -/
def correct_ipa_pronunciation (s : List Char) : List Char :=
  insertStressIfMissing (collapseStress (substRhotic (substErr s)))

/-- `re.sub(r'tj', 'tʃ', s)`; after a match the scan resumes past it. -/
def substTJ : List Char → List Char
  | 't' :: 'j' :: rest => 't' :: 'ʃ' :: substTJ rest
  | c :: rest => c :: substTJ rest
  | [] => []

/-- `re.sub(r'dj', 'dʒ', s)`. -/
def substDJ : List Char → List Char
  | 'd' :: 'j' :: rest => 'd' :: 'ʒ' :: substDJ rest
  | c :: rest => c :: substDJ rest
  | [] => []

/-- `re.sub(r'ːː+', 'ː', s)`: each maximal run of two or more length
marks becomes a single one (a lone mark is left alone, which the
run-to-first rendering also captures). -/
def collapseLongAux : Bool → List Char → List Char
  | _, [] => []
  | prev, c :: rest =>
    if c = 'ː' then
      if prev then collapseLongAux true rest else c :: collapseLongAux true rest
    else c :: collapseLongAux false rest

/-- Length-mark collapse rule of the standardizer. -/
def collapseLong (s : List Char) : List Char := collapseLongAux false s

/-- `re.sub(r'([ˈˌ])\1+', r'\1', s)`: a run of two or more copies of the
SAME stress glyph collapses to one; a glyph differing from its
predecessor always survives (mixed runs are not collapsed). -/
def collapseSameStressAux : Option Char → List Char → List Char
  | _, [] => []
  | prev, c :: rest =>
    if isStressChar c && prev == some c then collapseSameStressAux (some c) rest
    else c :: collapseSameStressAux (some c) rest

/-- Repeated-stress-glyph collapse rule of the standardizer. -/
def collapseSameStressRun (s : List Char) : List Char := collapseSameStressAux none s

/-- `re.sub(r'\s+', ' ', s)`: each maximal whitespace run becomes one space. -/
def collapseWsAux : Bool → List Char → List Char
  | _, [] => []
  | prev, c :: rest =>
    if isWsChar c then
      if prev then collapseWsAux true rest else ' ' :: collapseWsAux true rest
    else c :: collapseWsAux false rest

/-- Whitespace-normalization rule of the standardizer. -/
def collapseWs (s : List Char) : List Char := collapseWsAux false s

/-- `s.strip()`: drop leading and trailing whitespace. -/
def trimWs (s : List Char) : List Char :=
  ((s.dropWhile isWsChar).reverse.dropWhile isWsChar).reverse

/-- `IPAStandardizer.__init__`: the seven `correction_rules`, in their
declared order. -/
def correction_rules : List (List Char → List Char) :=
  [substErr, substRhotic, substTJ, substDJ, collapseLong, collapseSameStressRun, collapseWs]

/-- The inner loop of `IPAStandardizer.standardize_ipa`: each rule is
applied in order, the output of one feeding the next. -/
def applyCorrectionRules (s : List Char) : List Char :=
  correction_rules.foldl (fun acc rule => rule acc) s

/-- `ipa_text.split(', ')`: split on the exact two-character separator. -/
def splitCommaSpace : List Char → List (List Char)
  | [] => [[]]
  | ',' :: ' ' :: rest => [] :: splitCommaSpace rest
  | c :: rest =>
    match splitCommaSpace rest with
    | [] => [[c]]
    | h :: t => (c :: h) :: t

/-- Per-pronunciation body of `standardize_ipa`: strip, skip empties,
apply the rules, strip again, keep only non-empty results. -/
def standardizePron (p : List Char) : Option (List Char) :=
  let p := trimWs p
  if p.isEmpty then none
  else
    let st := trimWs (applyCorrectionRules p)
    if st.isEmpty then none else some st

/-- `IPAStandardizer.standardize_ipa`: split the text on `", "`, push
every pronunciation through the ordered rule list, and rejoin. -/
def standardize_ipa (s : List Char) : List Char :=
  List.intercalate [',', ' '] ((splitCommaSpace s).filterMap standardizePron)

/-- Uppercase ASCII letter test.  This models Python's `char.isupper()`
on the ASCII domain only: for characters below code point 128 the two
agree exactly, while Python additionally treats non-ASCII uppercase
letters (such as Greek capitals) as uppercase.  Statements built on this
test therefore carry an explicit all-ASCII hypothesis on the input. -/
def isUpperAZ (c : Char) : Bool := 'A' ≤ c && c ≤ 'Z'

/-- ASCII digit test: models Python's `char.isdigit()` on the ASCII
domain, where the two agree exactly. -/
def isDigitCh (c : Char) : Bool := '0' ≤ c && c ≤ '9'

/-- `str.split()` with no argument: split on whitespace runs, never
producing empty fields.  The accumulator holds the current field in
reverse. -/
def splitWsAux : List Char → List Char → List (List Char)
  | cur, [] => if cur.isEmpty then [] else [cur.reverse]
  | cur, c :: rest =>
    if isWsChar c then
      if cur.isEmpty then splitWsAux [] rest
      else cur.reverse :: splitWsAux [] rest
    else splitWsAux (c :: cur) rest

/-- Whitespace split used by `parse_cmu_pronunciation`. -/
def splitWs (s : List Char) : List (List Char) := splitWsAux [] s

/-- `re.match(r'([A-Z]+)([0-2])?', token)`: the leading run of uppercase
letters is the phoneme symbol; an immediately following digit 0/1/2 is
the stress level, anything else (or nothing) means stress 0; tokens with
no leading uppercase letter do not match and are skipped. -/
def parseCmuToken (t : List Char) : Option (String × Nat) :=
  let caps := t.takeWhile isUpperAZ
  if caps.isEmpty then none
  else some (String.mk caps,
    match t.drop caps.length with
    | [] => 0
    | d :: _ => if d = '0' then 0 else if d = '1' then 1 else if d = '2' then 2 else 0)

/-- `CorrectIPAConverter.parse_cmu_pronunciation`. -/
def parse_cmu_pronunciation (s : List Char) : List (String × Nat) :=
  (splitWs s).filterMap parseCmuToken

/-- The Arpabet vowel table of `CorrectIPAConverter.__init__`. -/
def vowel_mapping : String → Option String
  | "AA" => some "ɑ"
  | "AE" => some "æ"
  | "AH" => some "ʌ"
  | "AO" => some "ɔ"
  | "AW" => some "aʊ"
  | "AY" => some "aɪ"
  | "EH" => some "ɛ"
  | "ER" => some "ɜːr"
  | "EY" => some "eɪ"
  | "IH" => some "ɪ"
  | "IY" => some "iː"
  | "OW" => some "oʊ"
  | "OY" => some "ɔɪ"
  | "UH" => some "ʊ"
  | "UW" => some "uː"
  | _ => none

/-- The Arpabet consonant table of `CorrectIPAConverter.__init__`. -/
def consonant_mapping : String → Option String
  | "P" => some "p"
  | "B" => some "b"
  | "T" => some "t"
  | "D" => some "d"
  | "K" => some "k"
  | "G" => some "ɡ"
  | "CH" => some "tʃ"
  | "JH" => some "dʒ"
  | "F" => some "f"
  | "V" => some "v"
  | "TH" => some "θ"
  | "DH" => some "ð"
  | "S" => some "s"
  | "Z" => some "z"
  | "SH" => some "ʃ"
  | "ZH" => some "ʒ"
  | "HH" => some "h"
  | "M" => some "m"
  | "N" => some "n"
  | "NG" => some "ŋ"
  | "L" => some "l"
  | "R" => some "r"
  | "W" => some "w"
  | "Y" => some "j"
  | _ => none

/-- `stress_mapping`: `'1' → 'ˈ'`, `'2' → 'ˌ'`, anything else empty. -/
def stress_mark (n : Nat) : String :=
  if n = 1 then "ˈ" else if n = 2 then "ˌ" else ""

/-- `CorrectIPAConverter.convert_to_ipa`: vowels get the table glyph
(with `AH` resolved by stress level), prefixed by the stress mark;
consonants get the table glyph unadorned; unknown codes are dropped. -/
def convert_to_ipa : List (String × Nat) → String
  | [] => ""
  | (sym, stress) :: rest =>
    (match vowel_mapping sym with
     | some v =>
       let glyph := if sym = "AH" then (if 0 < stress then "ʌ" else "ə") else v
       stress_mark stress ++ glyph
     | none =>
       match consonant_mapping sym with
       | some c => c
       | none => "") ++ convert_to_ipa rest

/-- `re.sub(r'[ˈˌ]', '', text)`: strip every stress glyph. -/
def removeStressMarks (s : List Char) : List Char :=
  s.filter (fun c => !(isStressChar c))

/-- The delimiter set `[' ', ',', '/']` of the character scanner in
`IPACorrector.convert_arpabet_to_ipa`. -/
def isScanDelim (c : Char) : Bool := c = ' ' || c = ',' || c = '/'

/-- The character scan of `IPACorrector.convert_arpabet_to_ipa`:
uppercase letters accumulate into the current candidate; a digit closes
a non-empty candidate with that digit as its stress level; any other
character (delimiter or not — the two source branches have identical
bodies) closes a non-empty candidate with stress `'0'` and is itself
dropped; at end of input a non-empty candidate is flushed with `'0'`.
The uppercase and digit tests model `char.isupper()`/`char.isdigit()`
on the ASCII domain (see `isUpperAZ`); the scan is faithful to the
Python source exactly on inputs whose characters are all ASCII. -/
def scanPhonemes (cur : List Char) : List Char → List (List Char × Char)
  | [] => if cur.isEmpty then [] else [(cur, '0')]
  | c :: rest =>
    if isUpperAZ c then scanPhonemes (cur ++ [c]) rest
    else if isDigitCh c then
      if cur.isEmpty then scanPhonemes [] rest
      else (cur, c) :: scanPhonemes [] rest
    else
      if cur.isEmpty then scanPhonemes [] rest
      else (cur, '0') :: scanPhonemes [] rest

/-- Token extraction of `IPACorrector.convert_arpabet_to_ipa`: stress
glyphs are removed up front, then the text is scanned into
(phoneme, stress-digit) pairs. -/
def convert_arpabet_tokens (s : List Char) : List (List Char × Char) :=
  scanPhonemes [] (removeStressMarks s)

/-- The forbidden-character list of `validate_ipa_format`
(`['<', '>', '&', '"', "'", '(', ')', '[', ']', '{', '}']`), written via
code points. -/
def isForbiddenChar (c : Char) : Bool :=
  c = Char.ofNat 60 || c = Char.ofNat 62 || c = Char.ofNat 38 ||
  c = Char.ofNat 34 || c = Char.ofNat 39 || c = Char.ofNat 40 ||
  c = Char.ofNat 41 || c = Char.ofNat 91 || c = Char.ofNat 93 ||
  c = Char.ofNat 123 || c = Char.ofNat 125

/-- The IPA-indicator list of `validate_ipa_format`
(`['ˈ', 'ˌ', 'ə', 'ɪ', 'ɛ', 'æ', 'ɑ', 'ɔ', 'ʊ', 'ʌ', '/', 'ː', 'ɜ', 'r']`). -/
def isIndicatorChar (c : Char) : Bool :=
  c = 'ˈ' || c = 'ˌ' || c = 'ə' || c = 'ɪ' || c = 'ɛ' || c = 'æ' ||
  c = 'ɑ' || c = 'ɔ' || c = 'ʊ' || c = 'ʌ' || c = '/' || c = 'ː' ||
  c = 'ɜ' || c = 'r'

/-- `UltimateIPACorrector.validate_ipa_format` (identical in the final
and advanced variants): reject empty text, text whose stripped length is
below 2, text holding a forbidden character, and indicator-free text of
length below 3; accept otherwise. -/
def validate_ipa_format (s : List Char) : Bool :=
  if s.isEmpty then false
  else if (trimWs s).length < 2 then false
  else if s.any isForbiddenChar then false
  else if !(s.any isIndicatorChar) && s.length < 3 then false
  else true

/-- `UltimateIPACorrector.completely_fix_stress_marks`: delete every
stress glyph, then insert one primary glyph before the first vowel, or
prepend it when no vowel exists; an input reduced to nothing stays
empty. -/
def completely_fix_stress_marks (s : List Char) : List Char :=
  let noStress := removeStressMarks s
  if noStress.isEmpty then noStress
  else if noStress.any isVowelChar then insertBeforeFirstVowel noStress
  else primaryStress :: noStress

/-- No two adjacent stress glyphs occur in the text (the state in which
the duplicate-collapse regex finds nothing to do). -/
def noAdjacentStress : List Char → Bool
  | a :: b :: rest => !(isStressChar a && isStressChar b) && noAdjacentStress (b :: rest)
  | _ => true

/-- No stress glyph sits between two class consonants (the state in
which the glyph-deletion regex finds nothing to do). -/
def noConsStressCons : List Char → Bool
  | a :: b :: c :: rest =>
    !(isConsClassChar a && isStressChar b && isConsClassChar c) &&
      noConsStressCons (b :: c :: rest)
  | _ => true

theorem isStressChar_cases {c : Char} (h : isStressChar c = true) :
    c = primaryStress ∨ c = secondaryStress := by
  simpa [isStressChar] using h

theorem noAdjacentStress_tail {a : Char} {rest : List Char}
    (h : noAdjacentStress (a :: rest) = true) : noAdjacentStress rest = true := by
  cases rest with
  | nil => rfl
  | cons b r =>
    simp only [noAdjacentStress, Bool.and_eq_true] at h
    exact h.2

theorem noConsStressCons_tail {a : Char} {rest : List Char}
    (h : noConsStressCons (a :: rest) = true) : noConsStressCons rest = true := by
  cases rest with
  | nil => rfl
  | cons b r =>
    cases r with
    | nil => rfl
    | cons c r2 =>
      simp only [noConsStressCons, Bool.and_eq_true] at h
      exact h.2

theorem collapseStressAux_id : ∀ (s : List Char) (b : Bool),
    noAdjacentStress s = true → (b = true → startsWithStress s = false) →
    collapseStressAux b s = s := by
  intro s
  induction s with
  | nil => intro b _ _; rfl
  | cons c rest ih =>
    intro b hadj hb
    by_cases hc : isStressChar c = true
    · have hbf : b = false := by
        cases b
        · rfl
        · have := hb rfl
          simp [startsWithStress, hc] at this
      subst hbf
      have hrest : startsWithStress rest = false := by
        cases rest with
        | nil => rfl
        | cons d r =>
          simp only [noAdjacentStress, Bool.and_eq_true, Bool.not_eq_true',
            Bool.and_eq_false_iff] at hadj
          rcases hadj.1 with h | h
          · exact absurd hc (by simp [h])
          · simp [startsWithStress, h]
      simp only [collapseStressAux, hc, if_true, Bool.false_eq_true, if_false]
      rw [ih true (noAdjacentStress_tail hadj) (fun _ => hrest)]
    · simp only [collapseStressAux, hc, Bool.false_eq_true, if_false]
      rw [ih false (noAdjacentStress_tail hadj) (by intro h; cases h)]

theorem removeConsStressConsFuel_id : ∀ (fuel : Nat) (s : List Char),
    noConsStressCons s = true → removeConsStressConsFuel fuel s = s := by
  intro fuel
  induction fuel with
  | zero => intro s _; rfl
  | succ n ih =>
    intro s h
    cases s with
    | nil => rfl
    | cons a rest =>
      cases rest with
      | nil => simp [removeConsStressConsFuel, ih [] rfl]
      | cons g rest1 =>
        cases rest1 with
        | nil => simp [removeConsStressConsFuel, ih [g] rfl]
        | cons c2 rest2 =>
          have hguard : (isConsClassChar a && isStressChar g && isConsClassChar c2) = false := by
            simp only [noConsStressCons, Bool.and_eq_true, Bool.not_eq_true'] at h
            exact h.1
          simp only [removeConsStressConsFuel, hguard, Bool.false_eq_true, if_false]
          rw [ih (g :: c2 :: rest2) (noConsStressCons_tail h)]

/-- C1 counterexample: the stress-mark repair pass is not idempotent.
On `"bæt"` the first run yields `"bˈæt"`, which still does not START
with a stress glyph, so a second run inserts another primary glyph
before the first vowel, yielding `"bˈˈæt"`. -/
theorem clean_stress_marks_twice_ne :
    clean_stress_marks (clean_stress_marks "bæt".data) ≠
      clean_stress_marks "bæt".data := by decide

/-- C1 amended: the stress-mark repair pass `clean_stress_marks` is a
no-op (hence trivially idempotent) on every text that already begins
with a stress glyph, has no two adjacent stress glyphs, and has no
stress glyph between two class consonants.  This is a sufficient
condition, not a characterization of the fixed points: vowel-free texts
such as `"st"` are also left unchanged.  Full idempotence fails. -/
theorem clean_stress_marks_fixed_point (s : List Char)
    (h1 : startsWithStress s = true)
    (h2 : noAdjacentStress s = true)
    (h3 : noConsStressCons s = true) :
    clean_stress_marks s = s := by
  have hne : s.isEmpty = false := by
    cases s with
    | nil => simp [startsWithStress] at h1
    | cons a l => rfl
  have hcol : collapseStress s = s :=
    collapseStressAux_id s false h2 (by intro h; cases h)
  have hins : insertStressIfMissing s = s := by
    simp [insertStressIfMissing, h1]
  unfold clean_stress_marks removeConsStressCons
  rw [hne]
  simp only [Bool.false_eq_true, if_false]
  rw [hcol, hins]
  exact removeConsStressConsFuel_id s.length s h3

/-- C1 witness for the amended fixed-point theorem, at `"ˈbæt"`. -/
theorem clean_stress_marks_fixed_point_witness :
    clean_stress_marks "ˈbæt".data = "ˈbæt".data :=
  clean_stress_marks_fixed_point _ (by decide) (by decide) (by decide)

theorem substErr_append (A B : List Char) :
    substErr (A ++ B) = substErr A ++ substErr B := by
  induction A with
  | nil => rfl
  | cons c A ih => by_cases hc : c = 'ɝ' <;> simp [substErr, hc, ih]

theorem substRhotic_append (A B : List Char) :
    substRhotic (A ++ B) = substRhotic A ++ substRhotic B := by
  induction A with
  | nil => rfl
  | cons c A ih => by_cases hc : c = 'ɹ' <;> simp [substRhotic, hc, ih]

theorem collapseStressAux_dup {g g' : Char}
    (hg : isStressChar g = true) (hg' : isStressChar g' = true) :
    ∀ (A : List Char) (b : Bool) (B : List Char),
    collapseStressAux b (A ++ g :: g' :: B) = collapseStressAux b (A ++ g :: B) := by
  intro A
  induction A with
  | nil =>
    intro b B
    cases b <;> simp [collapseStressAux, hg, hg']
  | cons a A ih =>
    intro b B
    by_cases ha : isStressChar a = true <;> cases b <;>
      simp [collapseStressAux, ha] <;> exact ih _ _

/-- C4: the stress resolver collapses a run of two or more consecutive
stress glyphs (in any mixture) to the run's left-most glyph: deleting
any glyph that immediately follows another glyph leaves the resolver's
output unchanged, so a whole run is equivalent to its first glyph. -/
theorem resolver_collapses_adjacent_stress (A B : List Char) (g g' : Char)
    (hg : isStressChar g = true) (hg' : isStressChar g' = true) :
    correct_ipa_pronunciation (A ++ g :: g' :: B) =
      correct_ipa_pronunciation (A ++ g :: B) := by
  have hgE : g ≠ 'ɝ' := by
    rcases isStressChar_cases hg with h | h <;> subst h <;> decide
  have hgR : g ≠ 'ɹ' := by
    rcases isStressChar_cases hg with h | h <;> subst h <;> decide
  have hgE' : g' ≠ 'ɝ' := by
    rcases isStressChar_cases hg' with h | h <;> subst h <;> decide
  have hgR' : g' ≠ 'ɹ' := by
    rcases isStressChar_cases hg' with h | h <;> subst h <;> decide
  have e1 : substRhotic (substErr (A ++ g :: g' :: B)) =
      substRhotic (substErr A) ++ g :: g' :: substRhotic (substErr B) := by
    rw [substErr_append, substRhotic_append]
    simp [substErr, substRhotic, hgE, hgR, hgE', hgR']
  have e2 : substRhotic (substErr (A ++ g :: B)) =
      substRhotic (substErr A) ++ g :: substRhotic (substErr B) := by
    rw [substErr_append, substRhotic_append]
    simp [substErr, substRhotic, hgE, hgR]
  unfold correct_ipa_pronunciation collapseStress
  rw [e1, e2, collapseStressAux_dup hg hg']

/-- C4 witness: the duplicate-stress sample of the spec,
`"ˈˈsæmpəl"` versus `"ˈsæmpəl"`. -/
theorem resolver_collapses_adjacent_stress_witness :
    correct_ipa_pronunciation ([] ++ 'ˈ' :: 'ˈ' :: "sæmpəl".data) =
      correct_ipa_pronunciation ([] ++ 'ˈ' :: "sæmpəl".data) :=
  resolver_collapses_adjacent_stress [] "sæmpəl".data 'ˈ' 'ˈ' (by decide) (by decide)

theorem insertBeforeFirstVowel_append (A B : List Char) (v : Char)
    (hA : A.any isVowelChar = false) (hv : isVowelChar v = true) :
    insertBeforeFirstVowel (A ++ v :: B) = A ++ primaryStress :: v :: B := by
  induction A with
  | nil => simp [insertBeforeFirstVowel, hv]
  | cons a A ih =>
    simp only [List.any_cons, Bool.or_eq_false_iff] at hA
    simp only [List.cons_append, insertBeforeFirstVowel, hA.1, Bool.false_eq_true, if_false,
      List.append_eq]
    rw [ih hA.2]

/-- C6: when the text left by the rhotic substitutions and the
duplicate-stress collapse has no leading stress glyph and splits as
`A ++ v :: B` with `v` its first vowel character, the resolver inserts
one primary stress glyph immediately before that vowel. -/
theorem resolver_inserts_before_first_vowel (s A B : List Char) (v : Char)
    (h1 : collapseStress (substRhotic (substErr s)) = A ++ v :: B)
    (h2 : A.any isVowelChar = false)
    (h3 : isVowelChar v = true)
    (h4 : startsWithStress (A ++ v :: B) = false) :
    correct_ipa_pronunciation s = A ++ primaryStress :: v :: B := by
  unfold correct_ipa_pronunciation
  rw [h1]
  have hne : (A ++ v :: B).isEmpty = false := by
    cases A <;> rfl
  simp only [insertStressIfMissing, hne, h4, Bool.not_false, Bool.and_self, if_true]
  exact insertBeforeFirstVowel_append A B v h2 h3

/-- C6 witness: the spec's sample `"bæt"` gains a primary stress glyph
before its first vowel, becoming `"bˈæt"`. -/
theorem resolver_inserts_before_first_vowel_witness :
    correct_ipa_pronunciation "bæt".data = ['b'] ++ primaryStress :: 'æ' :: "t".data :=
  resolver_inserts_before_first_vowel "bæt".data ['b'] "t".data 'æ'
    (by decide) (by decide) (by decide) (by decide)

/-- C2 counterexample: the Arpabet input `"AH0 B AO1 R SH AH0 N"` does
NOT tokenize to six tokens — the trailing `N` is also parsed — and the
stress resolver does NOT leave the mapped text `"əbˈɔrʃən"` unchanged:
it inserts a leading primary glyph before the initial schwa. -/
theorem end_to_end_scenario_cex :
    parse_cmu_pronunciation "AH0 B AO1 R SH AH0 N".data ≠
      [("AH", 0), ("B", 0), ("AO", 1), ("R", 0), ("SH", 0), ("AH", 0)] ∧
    clean_stress_marks "əbˈɔrʃən".data ≠ "əbˈɔrʃən".data := by decide

/-- C2 amended: `"AH0 B AO1 R SH AH0 N"` tokenizes to the seven tokens
(AH,0),(B,0),(AO,1),(R,0),(SH,0),(AH,0),(N,0); the symbol mapper renders
them as `"əbˈɔrʃən"`; the stress resolver turns that into
`"ˈəbˈɔrʃən"`; the rule pipeline leaves the result unchanged; and the
validator accepts it. -/
theorem end_to_end_scenario :
    parse_cmu_pronunciation "AH0 B AO1 R SH AH0 N".data =
      [("AH", 0), ("B", 0), ("AO", 1), ("R", 0), ("SH", 0), ("AH", 0), ("N", 0)] ∧
    convert_to_ipa
      [("AH", 0), ("B", 0), ("AO", 1), ("R", 0), ("SH", 0), ("AH", 0), ("N", 0)] =
      "əbˈɔrʃən" ∧
    clean_stress_marks "əbˈɔrʃən".data = "ˈəbˈɔrʃən".data ∧
    standardize_ipa "ˈəbˈɔrʃən".data = "ˈəbˈɔrʃən".data ∧
    validate_ipa_format "ˈəbˈɔrʃən".data = true := by decide

/-- C3 counterexample: mapping the single token (AH, PRIMARY) yields
`"ˈʌ"` — the glyph is prefixed with the primary stress mark — not the
bare `"ʌ"` the claim states. -/
theorem ah_disambiguation_cex : convert_to_ipa [("AH", 1)] ≠ "ʌ" := by decide

/-- C3 amended: the symbol mapper resolves AH by stress level — PRIMARY
and SECONDARY select the `ʌ` glyph (carrying the corresponding stress
prefix), and NONE selects the bare schwa `ə`. -/
theorem ah_disambiguation :
    convert_to_ipa [("AH", 1)] = "ˈʌ" ∧
    convert_to_ipa [("AH", 2)] = "ˌʌ" ∧
    convert_to_ipa [("AH", 0)] = "ə" := by decide

/-- C7: the rule pipeline is a sequential fold — the output of each
rule feeds the next, every rule in `correction_rules` is attempted in
declared order — and on the built-in rules the rhotic merge maps
`"kɝt"` to `"kɜːrt"` while affricate coalescing maps `"ædjʊl"` to
`"ædʒʊl"`. -/
theorem rule_pipeline_sequential :
    (∀ s : List Char, applyCorrectionRules s =
      collapseWs (collapseSameStressRun (collapseLong
        (substDJ (substTJ (substRhotic (substErr s))))))) ∧
    standardize_ipa "kɝt".data = "kɜːrt".data ∧
    standardize_ipa "ædjʊl".data = "ædʒʊl".data :=
  ⟨fun _ => rfl, by decide, by decide⟩

theorem scanPhonemes_join : ∀ (l cur : List Char),
    ((scanPhonemes cur l).map Prod.fst).flatten = cur ++ l.filter isUpperAZ := by
  intro l
  induction l with
  | nil =>
    intro cur
    by_cases h : cur.isEmpty
    · simp [scanPhonemes, h, List.isEmpty_iff.mp h]
    · simp [scanPhonemes, h]
  | cons c rest ih =>
    intro cur
    by_cases hu : isUpperAZ c = true
    · simp only [scanPhonemes, hu, if_true, List.filter_cons, ih, List.append_assoc,
        List.singleton_append]
    · by_cases hd : isDigitCh c = true
      · by_cases hc : cur.isEmpty
        · simp [scanPhonemes, hu, hd, hc, ih, List.filter_cons, List.isEmpty_iff.mp hc]
        · simp [scanPhonemes, hu, hd, hc, ih, List.filter_cons]
      · by_cases hc : cur.isEmpty
        · simp [scanPhonemes, hu, hd, hc, ih, List.filter_cons, List.isEmpty_iff.mp hc]
        · simp [scanPhonemes, hu, hd, hc, ih, List.filter_cons]

theorem filter_upper_removeStressMarks (s : List Char) :
    (removeStressMarks s).filter isUpperAZ = s.filter isUpperAZ := by
  induction s with
  | nil => rfl
  | cons c rest ih =>
    by_cases hs : isStressChar c = true
    · have hup : isUpperAZ c = false := by
        rcases isStressChar_cases hs with h | h <;> subst h <;> decide
      simp only [removeStressMarks, List.filter_cons, hs, Bool.not_true, Bool.false_eq_true,
        if_false, hup] at ih ⊢
      exact ih
    · simp only [removeStressMarks, List.filter_cons, hs, Bool.not_false, if_true] at ih ⊢
      by_cases hup : isUpperAZ c = true <;> simp [hup, ih]

/-- C5 counterexample: the tokenizer does not reproduce every letter of
the input — lowercase letters are silently dropped.  On `"aB"` the
concatenated token symbols are `"B"`, but the input with digits and
delimiters removed is `"aB"`. -/
theorem tokenizer_coverage_cex :
    ((convert_arpabet_tokens "aB".data).map Prod.fst).flatten ≠
      ("aB".data).filter (fun c => !(isDigitCh c || isScanDelim c)) := by decide

set_option linter.unusedVariables false in
/-- C5 amended: for every input made of ASCII characters (the domain on
which the model's uppercase/digit tests coincide with Python's
`char.isupper()`/`char.isdigit()` — see `isUpperAZ`), concatenating the
symbol fields of all tokens, in order, reproduces every uppercase
letter A–Z of the input, with digits, delimiters and all other
characters removed.  On non-ASCII input the Python scan would also keep
non-ASCII uppercase letters, so the statement is restricted to the
ASCII Arpabet domain. -/
theorem tokenizer_uppercase_coverage (s : List Char)
    (hascii : ∀ c ∈ s, c.toNat < 128) :
    ((convert_arpabet_tokens s).map Prod.fst).flatten = s.filter isUpperAZ := by
  unfold convert_arpabet_tokens
  rw [scanPhonemes_join, filter_upper_removeStressMarks]
  rfl

/-- C5 witness for the amended coverage theorem, at the all-ASCII
Arpabet input `"AH0 B AO1 R SH AH0 N"`. -/
theorem tokenizer_uppercase_coverage_witness :
    (∀ c ∈ "AH0 B AO1 R SH AH0 N".data, c.toNat < 128) ∧
    ((convert_arpabet_tokens "AH0 B AO1 R SH AH0 N".data).map Prod.fst).flatten =
      ("AH0 B AO1 R SH AH0 N".data).filter isUpperAZ :=
  ⟨by decide, tokenizer_uppercase_coverage _ (by decide)⟩

/-- C8: the validator rejects every text whose stripped length is below
2, and every text containing a forbidden character, independently of
anything else in the text. -/
theorem validator_rejects_short_or_forbidden (s : List Char)
    (h : (trimWs s).length < 2 ∨ ∃ c, isForbiddenChar c = true ∧ c ∈ s) :
    validate_ipa_format s = false := by
  rcases h with h | ⟨c, hc, hmem⟩
  · by_cases he : s.isEmpty <;> simp [validate_ipa_format, he, h]
  · have hany : s.any isForbiddenChar = true := List.any_eq_true.mpr ⟨c, hmem, hc⟩
    by_cases he : s.isEmpty
    · simp [validate_ipa_format, he]
    · by_cases hlen : (trimWs s).length < 2 <;>
        simp [validate_ipa_format, he, hlen, hany]

/-- C8 witness: the 1-character string `"æ"` is rejected for length, and
`"(æt"` — 3 characters, indicator glyph present — is rejected for its
forbidden parenthesis. -/
theorem validator_rejects_short_or_forbidden_witness :
    validate_ipa_format "æ".data = false ∧ validate_ipa_format "(æt".data = false :=
  ⟨validator_rejects_short_or_forbidden _ (Or.inl (by decide)),
   validator_rejects_short_or_forbidden _ (Or.inr ⟨Char.ofNat 40, by decide, by decide⟩)⟩

/-- C10: the validator's indicator set contains the ASCII letter `r`,
so any text of stripped length at least 2 that contains `r` and no
forbidden character is accepted — even plain-ASCII text shorter than 3
characters. -/
theorem validator_accepts_with_r (s : List Char)
    (h1 : 2 ≤ (trimWs s).length) (h2 : 'r' ∈ s)
    (h3 : s.any isForbiddenChar = false) :
    validate_ipa_format s = true := by
  have hne : s.isEmpty = false := by
    cases s with
    | nil => exact absurd h1 (by decide)
    | cons a l => rfl
  have hind : s.any isIndicatorChar = true := List.any_eq_true.mpr ⟨'r', h2, by decide⟩
  have hlen : ¬(trimWs s).length < 2 := by omega
  simp [validate_ipa_format, hne, hlen, h3, hind]

/-- C10 witness: the 2-character plain-ASCII string `"rr"` is accepted. -/
theorem validator_accepts_with_r_witness : validate_ipa_format "rr".data = true :=
  validator_accepts_with_r _ (by decide) (by decide) (by decide)

set_option linter.unnecessarySeqFocus false in
theorem count_insertBeforeFirstVowel (l : List Char) (h : l.any isVowelChar = true) :
    (insertBeforeFirstVowel l).count primaryStress = l.count primaryStress + 1 ∧
    (insertBeforeFirstVowel l).count secondaryStress = l.count secondaryStress := by
  induction l with
  | nil => simp at h
  | cons c rest ih =>
    by_cases hv : isVowelChar c = true
    · refine ⟨?_, ?_⟩ <;> simp [insertBeforeFirstVowel, hv, List.count_cons] <;> decide
    · have hrest : rest.any isVowelChar = true := by
        simp only [List.any_cons, hv, Bool.false_or] at h
        exact h
      refine ⟨?_, ?_⟩ <;>
        simp only [insertBeforeFirstVowel, hv, Bool.false_eq_true, if_false,
          List.count_cons, (ih hrest).1, (ih hrest).2] <;> omega

/-- C9 counterexample: on the non-empty input `"ˈ"` (a lone stress
glyph) the ultimate-variant repair returns the empty string, which
contains no stress glyph at all — not exactly one. -/
theorem completely_fix_all_stress_input_cex :
    "ˈ".data ≠ [] ∧
    (completely_fix_stress_marks "ˈ".data).count primaryStress = 0 ∧
    (completely_fix_stress_marks "ˈ".data).count secondaryStress = 0 := by decide

/-- C9 amended: for every input containing at least one non-stress
character, the ultimate-variant repair returns a string with exactly one
stress glyph, the primary one (inputs made solely of stress glyphs
collapse to the empty string instead). -/
theorem completely_fix_single_stress_glyph (s : List Char)
    (h : ∃ c ∈ s, isStressChar c = false) :
    (completely_fix_stress_marks s).count primaryStress = 1 ∧
    (completely_fix_stress_marks s).count secondaryStress = 0 := by
  obtain ⟨c, hmem, hc⟩ := h
  have hmem' : c ∈ removeStressMarks s :=
    List.mem_filter.mpr ⟨hmem, by simp [hc]⟩
  have hne : (removeStressMarks s).isEmpty = false := by
    cases hrs : removeStressMarks s with
    | nil => rw [hrs] at hmem'; cases hmem'
    | cons a l => rfl
  have hpz : (removeStressMarks s).count primaryStress = 0 := by
    refine List.count_eq_zero.mpr fun hm => ?_
    have h2 := (List.mem_filter.mp hm).2
    exact absurd h2 (by decide)
  have hsz : (removeStressMarks s).count secondaryStress = 0 := by
    refine List.count_eq_zero.mpr fun hm => ?_
    have h2 := (List.mem_filter.mp hm).2
    exact absurd h2 (by decide)
  by_cases hvow : (removeStressMarks s).any isVowelChar = true
  · have hcount := count_insertBeforeFirstVowel _ hvow
    simp only [completely_fix_stress_marks, hne, Bool.false_eq_true, if_false, hvow, if_true]
    rw [hcount.1, hcount.2, hpz, hsz]
    exact ⟨rfl, rfl⟩
  · simp only [completely_fix_stress_marks, hne, Bool.false_eq_true, if_false, hvow,
      List.count_cons, hpz, hsz]
    exact ⟨by decide, by decide⟩

/-- C9 witness: `"bˈæt"` contains non-stress characters; the repair
yields a text with exactly one (primary) stress glyph. -/
theorem completely_fix_single_stress_glyph_witness :
    (completely_fix_stress_marks "bˈæt".data).count primaryStress = 1 ∧
    (completely_fix_stress_marks "bˈæt".data).count secondaryStress = 0 :=
  completely_fix_single_stress_glyph _ ⟨'b', by decide, by decide⟩
